import Mathlib

/-!
Verification of the depender graph-rendering core
(`src/depender/graph/render.py`) against its specification.

The `GraphRenderer` methods are embedded shallowly: the pure data
computations (dependency-matrix construction, degree-based coloring,
structure-graph attribute collection) are translated into Lean
functions; the plotting/HTML side effects are out of scope.

The repository imports `depender.graph.graph` (the `Graph`/`Node`
model), `depender.utilities.color` (`linear_gradient`) and
`depender.graph.layout`, whose source files are not present under
`src/`; those are modelled from the specification (their doc comments
say so explicitly).  Everything else is translated directly from
`render.py`.
-/

namespace Depender

/-- Modelled from the spec: the `Node` of `depender/graph/graph.py`
(not under `src/`).  `name` is the unique lookup key; `type` is the
node kind tag (`"root"`/`"directory"`/`"file"` for structure graphs);
`label` is display text; `x`, `y` are the mutable center coordinates
set by the layout engine; `width`/`height` the bounding box; `index`
is the optional matrix position, assigned lazily. -/
structure Node where
  name : String
  type : String
  label : String
  x : ℚ := 0
  y : ℚ := 0
  width : ℚ := 0
  height : ℚ := 0
  index : Option Nat := none
  deriving Repr, DecidableEq

/-- Modelled from the spec: the `Graph` of `depender/graph/graph.py`
(not under `src/`).  `nodes` is the insertion-ordered node collection
(a name-keyed mapping preserving insertion order); `edges` maps each
source name to a destination-keyed mapping of integer multiplicities.
Both mappings are represented as association lists in iteration
order. -/
structure Graph where
  nodes : List Node
  edges : List (String × List (String × Nat))
  deriving Repr, DecidableEq

namespace Graph

/-- Modelled from the spec: `get_all_node_names()` returns the ordered
sequence of node names. -/
def getAllNodeNames (g : Graph) : List String :=
  g.nodes.map (·.name)

/-- Modelled from the spec: `node_count()` returns the number of nodes. -/
def nodeCount (g : Graph) : Nat :=
  g.nodes.length

/-- Modelled from the spec: `get_node(name)` returns the node with the
given name, or `None` when absent. -/
def getNode (g : Graph) (name : String) : Option Node :=
  g.nodes.find? (·.name == name)

/-- Modelled from the spec: `in_degree(name)` is the sum of
multiplicities of edges terminating at `name`. -/
def inDegree (g : Graph) (name : String) : Nat :=
  (g.edges.map (fun p => ((p.2.filter (fun q => q.1 == name)).map (·.2)).sum)).sum

/-- Modelled from the spec: `out_degree(name)` is the sum of
multiplicities of edges originating at `name`. -/
def outDegree (g : Graph) (name : String) : Nat :=
  match g.edges.find? (·.1 == name) with
  | some p => (p.2.map (·.2)).sum
  | none => 0

/-- Modelled from the spec: `edges_iter()` yields
`(source_name, {destination_name: multiplicity})` pairs; flattening it
gives the ordered pairs `(source, destination)` of all distinct
directed edges, in iteration order. -/
def edgePairs (g : Graph) : List (String × String) :=
  g.edges.flatMap (fun p => p.2.map (fun q => (p.1, q.1)))

/-- Total edge multiplicity of the graph: the sum over all edges of
their multiplicities (spec §3, §8). -/
def totalEdgeMultiplicity (g : Graph) : Nat :=
  (g.edges.map (fun p => (p.2.map (·.2)).sum)).sum

/-- Well-formedness invariants of a populated graph (spec §3, §4.1):
node names are unique (`DuplicateNodeError` prevents duplicates); the
`edges` mapping has unique source keys and unique destination keys per
source (it is a mapping of mappings); and every edge endpoint
references a present node (`UnknownNodeError` prevents dangling
endpoints). -/
def WF (g : Graph) : Prop :=
  (g.nodes.map (·.name)).Nodup ∧
  (g.edges.map (·.1)).Nodup ∧
  (∀ p ∈ g.edges, (p.2.map (·.1)).Nodup) ∧
  (∀ p ∈ g.edges, p.1 ∈ g.getAllNodeNames ∧ ∀ q ∈ p.2, q.1 ∈ g.getAllNodeNames)

instance (g : Graph) : Decidable g.WF := by
  unfold WF; infer_instance

end Graph

/-! ## Dependency matrix builder (`render_dependency_matrix`, render.py lines 122-198) -/

/-- The ordering `node_names = list(reversed(graph.get_all_node_names()))`
(render.py line 124): the single node ordering fixed for the whole render, used for
the `x_range`, the `y_range` and the index assignment. -/
def nodeNames (g : Graph) : List String :=
  g.getAllNodeNames.reverse

/-- The update performed by `graph.get_node(node).index = index`
(render.py line 169): the node whose name matches gets its `index`
field set. -/
def setNodeIndex (nodes : List Node) (name : String) (i : Nat) : List Node :=
  nodes.map (fun nd => if nd.name == name then { nd with index := some i } else nd)

/-- The loop `for index, node in enumerate(node_names): graph.get_node(node).index = index`
(render.py lines 168-169). -/
def assignIndices (g : Graph) : Graph :=
  { g with nodes := (nodeNames g).enum.foldl (fun ns p => setNodeIndex ns p.2 p.1) g.nodes }

/-- The index each node receives in the loop of render.py lines 168-169:
its 0-based position in `node_names`.  (That the assigned `index` field
equals this is proved below, under the unique-names invariant.) -/
def nodeIndex (g : Graph) (name : String) : Nat :=
  (nodeNames g).indexOf name

/-- The initialization `matrix = [[0 for _ in range(node_count)] for _ in range(node_count)]`
(render.py line 175). -/
def zeroMatrix (n : Nat) : List (List Int) :=
  List.replicate n (List.replicate n 0)

/-- Reading `matrix[i][j]` (with 0 as the out-of-range default). -/
def getCell (m : List (List Int)) (i j : Nat) : Int :=
  (m.getD i []).getD j 0

/-- The increment `matrix[i][j] += 1` (render.py line 183). -/
def incCell (m : List (List Int)) (i j : Nat) : List (List Int) :=
  m.set i ((m.getD i []).set j (getCell m i j + 1))

/-- The accumulation loop of render.py lines 181-183:
`for source_node, sink_nodes in graph.edges_iter(): for sink_node in sink_nodes:`
iterates the *keys* of each destination mapping and increments the cell
at the endpoints' indices by one per distinct edge. -/
def buildMatrix (g : Graph) : List (List Int) :=
  g.edgePairs.foldl
    (fun m p => incCell m (nodeIndex g p.1) (nodeIndex g p.2))
    (zeroMatrix g.nodeCount)

/-- Column `data["importing_name"]` after the double loop of render.py
lines 177-180: for each `source_node` in `node_names`, one entry per
`sink_node` in `node_names`. -/
def importingNames (g : Graph) : List String :=
  (nodeNames g).flatMap (fun s => (nodeNames g).map (fun _ => s))

/-- Column `data["imported_name"]` after the double loop of render.py
lines 177-180. -/
def importedNames (g : Graph) : List String :=
  (nodeNames g).flatMap (fun _ => nodeNames g)

/-- The per-element color branch of render.py lines 185-191: count `0`
yields the neutral `"#ffffff"`, count `1` yields `self.out_color`,
count `-1` yields `self.in_color`, and any other count appends
nothing. -/
def cellColor (e : Int) (out_color in_color : String) : Option String :=
  if e = 0 then some "#ffffff"
  else if e = 1 then some out_color
  else if e = -1 then some in_color
  else none

/-- The loop `for element in list(chain.from_iterable(matrix))` appending
one color per matching element (render.py lines 185-191). -/
def assignColors (cells : List Int) (out_color in_color : String) : List String :=
  cells.filterMap (fun e => cellColor e out_color in_color)

/-- The flat per-cell record columns produced by
`render_dependency_matrix` for the `ColumnDataSource` (render.py
lines 171-194): importing name, imported name, color and count per
cell. -/
structure MatrixData where
  importing : List String
  imported : List String
  color : List String
  matrix : List Int
  deriving Repr, DecidableEq

/-- The pure data part of `render_dependency_matrix` (render.py
lines 122-194): the four per-cell columns handed to the renderer. -/
def renderDependencyMatrixData (g : Graph) (out_color in_color : String) : MatrixData :=
  { importing := importingNames g
    imported := importedNames g
    color := assignColors (buildMatrix g).flatten out_color in_color
    matrix := (buildMatrix g).flatten }

/-! ## Degree-based node coloring (`render_dependency_graph`, render.py lines 70-85) -/

/-- An RGB color with exact rational channels, the representation on
which channel mixing operates. -/
@[ext]
structure Color where
  r : ℚ
  g : ℚ
  b : ℚ
  deriving Repr, DecidableEq

/-- Modelled from the spec: `linear_gradient` of
`depender/utilities/color.py` (not under `src/`).  Spec §4.2: the
interpolation weight is `in_degree / (in_degree + out_degree)`, applied
independently to each channel as
`mixed_channel = out_channel + (in_channel - out_channel) * weight`. -/
def linear_gradient (out_color in_color : Color) (in_degree out_degree : Nat) : Color :=
  { r := out_color.r + (in_color.r - out_color.r) *
          ((in_degree : ℚ) / ((in_degree : ℚ) + (out_degree : ℚ)))
    g := out_color.g + (in_color.g - out_color.g) *
          ((in_degree : ℚ) / ((in_degree : ℚ) + (out_degree : ℚ)))
    b := out_color.b + (in_color.b - out_color.b) *
          ((in_degree : ℚ) / ((in_degree : ℚ) + (out_degree : ℚ))) }

/-- The per-node color computation of `render_dependency_graph`
(render.py lines 76-81): a node with both degrees zero gets
`self.dis_color`, otherwise `linear_gradient(self.out_color,
self.in_color, in_degree, out_degree)`. -/
def dependencyNodeColor (g : Graph) (name : String)
    (in_color out_color dis_color : Color) : Color :=
  if g.inDegree name = 0 ∧ g.outDegree name = 0 then dis_color
  else linear_gradient out_color in_color (g.inDegree name) (g.outDegree name)

/-! ## Structure graph rendering (`render_structure_graph`, render.py lines 200-235) -/

/-- The per-node color branch of render.py lines 219-221:
`self.root_dir_color if node.type == "root" else self.dir_color if
node.type == "directory" else self.file_color`. -/
def structureNodeColor (nd : Node) (root_dir_color dir_color file_color : String) : String :=
  if nd.type == "root" then root_dir_color
  else if nd.type == "directory" then dir_color
  else file_color

/-- The `node_data["color"]` column collected by the node loop of
render.py lines 210-222: one color per node, in iteration order. -/
def structureNodeColors (g : Graph) (root_dir_color dir_color file_color : String) :
    List String :=
  g.nodes.map (fun nd => structureNodeColor nd root_dir_color dir_color file_color)

/-- The edge-coordinate collection loop of render.py lines 226-234:
for each edge `(edge_begin, edge_end)` both endpoints are looked up
with `get_node`, and only when both are present (`if begin_node and
end_node`) is the pair of coordinate tuples
`((begin.x, end.x), (begin.y, end.y))` appended; otherwise the edge is
skipped. -/
def structureEdgeData (g : Graph) : List ((ℚ × ℚ) × (ℚ × ℚ)) :=
  g.edges.flatMap (fun p => p.2.filterMap (fun q =>
    match g.getNode p.1, g.getNode q.1 with
    | some begin_node, some end_node =>
        some ((begin_node.x, end_node.x), (begin_node.y, end_node.y))
    | _, _ => none))

/-- The lookup-and-pair step applied to a single ordered edge pair. -/
def edgeCoords (g : Graph) (pr : String × String) : Option ((ℚ × ℚ) × (ℚ × ℚ)) :=
  match g.getNode pr.1, g.getNode pr.2 with
  | some begin_node, some end_node =>
      some ((begin_node.x, end_node.x), (begin_node.y, end_node.y))
  | _, _ => none

/-! ## Example graphs (spec §8 end-to-end example and variants) -/

/-- The dependency graph of the spec §8 end-to-end example: edges
`A→B` (multiplicity 2) and `B→A` (multiplicity 1), node `C` isolated. -/
def exampleGraph : Graph :=
  { nodes := [{ name := "a", type := "module", label := "a" },
              { name := "b", type := "module", label := "b" },
              { name := "c", type := "module", label := "c" }]
    edges := [("a", [("b", 2)]), ("b", [("a", 1)])] }

/-- A laid-out structure graph holding one node of every `type` tag,
including one outside the closed variant, and an edge whose
destination name resolves to no node. -/
def exampleStructureGraph : Graph :=
  { nodes := [{ name := "top", type := "root", label := "top", x := 0, y := 0 },
              { name := "d", type := "directory", label := "d", x := 1, y := 1 },
              { name := "f", type := "file", label := "f", x := 2, y := 3 },
              { name := "w", type := "weird", label := "w", x := 4, y := 5 }]
    edges := [("top", [("d", 1), ("ghost", 1)]), ("d", [("f", 1)])] }

/-- The node of `exampleStructureGraph` whose `type` lies outside the
closed variant. -/
def exampleNodeW : Node :=
  { name := "w", type := "weird", label := "w", x := 4, y := 5 }

/-- The node named "a" of `exampleGraph` as it looks after the matrix
index assignment. -/
def exampleNodeA : Node :=
  { name := "a", type := "module", label := "a", index := some 2 }

/-- A sample endpoint color. -/
def colorA : Color := { r := 1, g := 1/2, b := 0 }

/-- A second sample endpoint color. -/
def colorB : Color := { r := 0, g := 1/4, b := 1 }

/-- A sample disconnected color. -/
def colorC : Color := { r := 1/8, g := 1/8, b := 1/8 }

/-! ## Verification helpers -/

/-- An `n × n` matrix shape: `n` rows, each of length `n`. -/
def MatShape (m : List (List Int)) (n : Nat) : Prop :=
  m.length = n ∧ ∀ row ∈ m, row.length = n

/-- Running a sequence of cell increments over a matrix (the
accumulation loop of render.py lines 181-183, abstracted over the list
of index pairs). -/
def applyIncs (m : List (List Int)) (ps : List (Nat × Nat)) : List (List Int) :=
  ps.foldl (fun m p => incCell m p.1 p.2) m

/-- The matrix index pairs hit by the accumulation loop, one per
distinct directed edge. -/
def indexPairs (g : Graph) : List (Nat × Nat) :=
  g.edgePairs.map (fun p => (nodeIndex g p.1, nodeIndex g p.2))

/-- Applying the per-pair index update of render.py lines 168-169 to a
single node, for the whole pair list in order. -/
def applyIndexUpdates (ps : List (Nat × String)) (nd : Node) : Node :=
  ps.foldl (fun nd p => if nd.name == p.2 then { nd with index := some p.1 } else nd) nd

/-! ## Matrix shape and cell lemmas -/

lemma matShape_zeroMatrix (n : Nat) : MatShape (zeroMatrix n) n := by
  refine ⟨by simp [zeroMatrix], ?_⟩
  intro row hrow
  have hr : row = List.replicate n (0 : Int) :=
    List.eq_of_mem_replicate (by simpa [zeroMatrix] using hrow)
  simp [hr]

lemma getD_mem {α : Type} {l : List α} {i : Nat} {d : α} (h : i < l.length) :
    l.getD i d ∈ l := by
  rw [List.getD_eq_getElem?_getD, List.getElem?_eq_getElem h]
  exact List.getElem_mem _

lemma getD_mem_of_lt {m : List (List Int)} {i : Nat} (h : i < m.length) :
    m.getD i [] ∈ m :=
  getD_mem h

lemma matShape_incCell {m : List (List Int)} {n i j : Nat} (h : MatShape m n) :
    MatShape (incCell m i j) n := by
  obtain ⟨hlen, hrow⟩ := h
  refine ⟨by simpa [incCell] using hlen, ?_⟩
  intro row hmem
  by_cases hi : i < m.length
  · rcases List.mem_or_eq_of_mem_set hmem with hmem' | heq
    · exact hrow _ hmem'
    · subst heq
      rw [List.length_set]
      exact hrow _ (getD_mem_of_lt hi)
  · rw [incCell, List.set_eq_of_length_le (by omega)] at hmem
    exact hrow _ hmem

lemma getCell_incCell {m : List (List Int)} {n a b : Nat} (h : MatShape m n)
    (ha : a < n) (hb : b < n) (i j : Nat) :
    getCell (incCell m a b) i j =
      if a = i ∧ b = j then getCell m i j + 1 else getCell m i j := by
  obtain ⟨hlen, hrow⟩ := h
  have halen : a < m.length := by omega
  have hrowa : (m.getD a []).length = n := hrow _ (getD_mem_of_lt halen)
  unfold incCell getCell
  by_cases hai : a = i
  · subst hai
    rw [List.getD_eq_getElem?_getD (List.set m a _), List.getElem?_set_self halen]
    by_cases hbj : b = j
    · subst hbj
      rw [Option.getD_some, List.getD_eq_getElem?_getD (List.set _ b _),
        List.getElem?_set_self (by omega)]
      simp [getCell]
    · rw [Option.getD_some, List.getD_eq_getElem?_getD (List.set _ b _),
        List.getElem?_set_ne hbj]
      simp [hbj, List.getD_eq_getElem?_getD]
  · rw [List.getD_eq_getElem?_getD (List.set m a _), List.getElem?_set_ne hai]
    simp [hai, List.getD_eq_getElem?_getD]

lemma applyIncs_nil (m : List (List Int)) : applyIncs m [] = m := rfl

lemma applyIncs_cons (m : List (List Int)) (q : Nat × Nat) (ps : List (Nat × Nat)) :
    applyIncs m (q :: ps) = applyIncs (incCell m q.1 q.2) ps := rfl

lemma matShape_applyIncs {n : Nat} {ps : List (Nat × Nat)} :
    ∀ {m : List (List Int)}, MatShape m n → MatShape (applyIncs m ps) n := by
  induction ps with
  | nil => intro m h; exact h
  | cons q ps ih =>
    intro m h
    rw [applyIncs_cons]
    exact ih (matShape_incCell h)

lemma getCell_applyIncs {n : Nat} {ps : List (Nat × Nat)}
    (hps : ∀ p ∈ ps, p.1 < n ∧ p.2 < n) (i j : Nat) :
    ∀ {m : List (List Int)}, MatShape m n →
      getCell (applyIncs m ps) i j =
        getCell m i j + (ps.countP (fun p => p.1 == i && p.2 == j) : Int) := by
  induction ps with
  | nil => intro m _; simp [applyIncs_nil]
  | cons q ps ih =>
    intro m hm
    have hq := hps q (List.mem_cons_self q ps)
    have hps' : ∀ p ∈ ps, p.1 < n ∧ p.2 < n :=
      fun p hp => hps p (List.mem_cons_of_mem q hp)
    rw [applyIncs_cons, ih hps' (matShape_incCell hm),
      getCell_incCell hm hq.1 hq.2 i j, List.countP_cons]
    by_cases hqi : q.1 = i ∧ q.2 = j
    · have hb : (q.1 == i && q.2 == j) = true := by
        simp [hqi.1, hqi.2]
      rw [if_pos hqi, hb]
      simp only [if_true]
      push_cast
      ring
    · have hb : (q.1 == i && q.2 == j) = false := by
        rcases Decidable.not_and_iff_or_not.1 hqi with h1 | h1 <;> simp [h1]
      rw [if_neg hqi, hb]
      simp only [Bool.false_eq_true, if_false]
      push_cast
      ring

lemma sum_set_int (l : List Int) {i : Nat} (h : i < l.length) (x : Int) :
    (l.set i x).sum = l.sum - l.getD i 0 + x := by
  induction l generalizing i with
  | nil => simp at h
  | cons a l ih =>
    cases i with
    | zero => simp [List.sum_cons]; ring
    | succ i =>
      have h' : i < l.length := by simpa using h
      simp only [List.set_cons_succ, List.sum_cons, List.getD_cons_succ, ih h']
      ring

lemma getD_map_sum {m : List (List Int)} {a : Nat} (h : a < m.length) :
    (m.map List.sum).getD a 0 = (m.getD a []).sum := by
  rw [List.getD_eq_getElem?_getD, List.getD_eq_getElem?_getD, List.getElem?_map,
    List.getElem?_eq_getElem h]
  simp

lemma flattenSum_incCell {m : List (List Int)} {n a b : Nat} (h : MatShape m n)
    (ha : a < n) (hb : b < n) :
    (incCell m a b).flatten.sum = m.flatten.sum + 1 := by
  obtain ⟨hlen, hrow⟩ := h
  have halen : a < m.length := by omega
  have hrowa : (m.getD a []).length = n := hrow _ (getD_mem_of_lt halen)
  rw [incCell, List.sum_flatten, List.map_set, sum_set_int _ (by simpa using halen),
    getD_map_sum halen, sum_set_int _ (by omega), List.sum_flatten]
  have hc : getCell m a b = (m.getD a []).getD b 0 := rfl
  rw [hc]
  ring

lemma flattenSum_applyIncs {n : Nat} {ps : List (Nat × Nat)}
    (hps : ∀ p ∈ ps, p.1 < n ∧ p.2 < n) :
    ∀ {m : List (List Int)}, MatShape m n →
      (applyIncs m ps).flatten.sum = m.flatten.sum + (ps.length : Int) := by
  induction ps with
  | nil => intro m _; simp [applyIncs_nil]
  | cons q ps ih =>
    intro m hm
    have hq := hps q (List.mem_cons_self q ps)
    have hps' : ∀ p ∈ ps, p.1 < n ∧ p.2 < n :=
      fun p hp => hps p (List.mem_cons_of_mem q hp)
    rw [applyIncs_cons, ih hps' (matShape_incCell hm), flattenSum_incCell hm hq.1 hq.2,
      List.length_cons]
    push_cast
    ring

/-! ## Graph-level matrix lemmas -/

lemma buildMatrix_eq_applyIncs (g : Graph) :
    buildMatrix g = applyIncs (zeroMatrix g.nodeCount) (indexPairs g) := by
  rw [buildMatrix, applyIncs, indexPairs, List.foldl_map]

lemma length_nodeNames (g : Graph) : (nodeNames g).length = g.nodeCount := by
  simp [nodeNames, Graph.getAllNodeNames, Graph.nodeCount]

lemma mem_nodeNames {g : Graph} {name : String} :
    name ∈ nodeNames g ↔ name ∈ g.getAllNodeNames := by
  simp [nodeNames]

lemma nodeIndex_lt {g : Graph} {name : String} (h : name ∈ g.getAllNodeNames) :
    nodeIndex g name < g.nodeCount := by
  rw [nodeIndex, ← length_nodeNames g]
  exact List.indexOf_lt_length.2 (mem_nodeNames.2 h)

lemma edgePairs_endpoints {g : Graph} (hwf : g.WF) :
    ∀ pr ∈ g.edgePairs, pr.1 ∈ g.getAllNodeNames ∧ pr.2 ∈ g.getAllNodeNames := by
  intro pr hpr
  rw [Graph.edgePairs, List.mem_flatMap] at hpr
  obtain ⟨p, hp, hpr⟩ := hpr
  rw [List.mem_map] at hpr
  obtain ⟨q, hq, rfl⟩ := hpr
  obtain ⟨h1, h2⟩ := hwf.2.2.2 p hp
  exact ⟨h1, h2 q hq⟩

lemma indexPairs_bounds {g : Graph} (hwf : g.WF) :
    ∀ p ∈ indexPairs g, p.1 < g.nodeCount ∧ p.2 < g.nodeCount := by
  intro p hp
  rw [indexPairs, List.mem_map] at hp
  obtain ⟨pr, hpr, rfl⟩ := hp
  obtain ⟨h1, h2⟩ := edgePairs_endpoints hwf pr hpr
  exact ⟨nodeIndex_lt h1, nodeIndex_lt h2⟩

lemma getCell_zeroMatrix (n i j : Nat) : getCell (zeroMatrix n) i j = 0 := by
  unfold getCell zeroMatrix
  simp only [List.getD_eq_getElem?_getD, List.getElem?_replicate]
  by_cases hi : i < n <;> by_cases hj : j < n <;> simp [hi, hj]

lemma flattenSum_zeroMatrix (n : Nat) : (zeroMatrix n).flatten.sum = 0 := by
  rw [zeroMatrix, List.sum_flatten]
  induction n with
  | zero => rfl
  | succ k ih => simp

lemma matShape_buildMatrix (g : Graph) : MatShape (buildMatrix g) g.nodeCount := by
  rw [buildMatrix_eq_applyIncs]
  exact matShape_applyIncs (matShape_zeroMatrix _)

lemma getCell_buildMatrix {g : Graph} (hwf : g.WF) (i j : Nat) :
    getCell (buildMatrix g) i j =
      ((indexPairs g).countP (fun p => p.1 == i && p.2 == j) : Int) := by
  rw [buildMatrix_eq_applyIncs,
    getCell_applyIncs (indexPairs_bounds hwf) i j (matShape_zeroMatrix _),
    getCell_zeroMatrix]
  ring

lemma flattenSum_buildMatrix {g : Graph} (hwf : g.WF) :
    (buildMatrix g).flatten.sum = (g.edgePairs.length : Int) := by
  rw [buildMatrix_eq_applyIncs,
    flattenSum_applyIncs (indexPairs_bounds hwf) (matShape_zeroMatrix _),
    flattenSum_zeroMatrix]
  simp [indexPairs]

lemma nodup_edgePairs {g : Graph} (hwf : g.WF) : g.edgePairs.Nodup := by
  rw [Graph.edgePairs, List.nodup_flatMap]
  constructor
  · intro p hp
    have h1 := hwf.2.2.1 p hp
    have hm : p.2.map (fun q => (p.1, q.1)) = (p.2.map (·.1)).map (fun d => (p.1, d)) := by
      rw [List.map_map]
      rfl
    rw [hm]
    refine h1.map ?_
    intro a b hab
    exact congrArg Prod.snd hab
  · have h2 : (g.edges.map (·.1)).Nodup := hwf.2.1
    have hpw : g.edges.Pairwise (fun a b => a.1 ≠ b.1) := by
      have := h2
      rw [List.Nodup, List.pairwise_map] at this
      exact this
    refine hpw.imp ?_
    intro a b hab
    intro x hx1 hx2
    rw [List.mem_map] at hx1 hx2
    obtain ⟨q1, -, rfl⟩ := hx1
    obtain ⟨q2, -, he⟩ := hx2
    exact hab ((congrArg Prod.fst he).symm)

lemma nodup_indexPairs {g : Graph} (hwf : g.WF) : (indexPairs g).Nodup := by
  rw [indexPairs]
  refine (nodup_edgePairs hwf).map_on ?_
  intro x hx y hy hxy
  obtain ⟨hx1, hx2⟩ := edgePairs_endpoints hwf x hx
  obtain ⟨hy1, hy2⟩ := edgePairs_endpoints hwf y hy
  have h1 : nodeIndex g x.1 = nodeIndex g y.1 := congrArg Prod.fst hxy
  have h2 : nodeIndex g x.2 = nodeIndex g y.2 := congrArg Prod.snd hxy
  have e1 : x.1 = y.1 :=
    (List.indexOf_inj (mem_nodeNames.2 hx1) (mem_nodeNames.2 hy1)).1 h1
  have e2 : x.2 = y.2 :=
    (List.indexOf_inj (mem_nodeNames.2 hx2) (mem_nodeNames.2 hy2)).1 h2
  exact Prod.ext e1 e2

lemma countP_pair_le_one {ps : List (Nat × Nat)} (h : ps.Nodup) (i j : Nat) :
    ps.countP (fun p => p.1 == i && p.2 == j) ≤ 1 := by
  induction ps with
  | nil => simp
  | cons q ps ih =>
    rw [List.countP_cons]
    rcases List.nodup_cons.1 h with ⟨hq, hps⟩
    by_cases hmatch : (q.1 == i && q.2 == j) = true
    · have hqij : q = (i, j) := by
        simp only [Bool.and_eq_true, beq_iff_eq] at hmatch
        exact Prod.ext hmatch.1 hmatch.2
      have hz : ps.countP (fun p => p.1 == i && p.2 == j) = 0 := by
        rw [List.countP_eq_zero]
        intro a ha hcon
        simp only [Bool.and_eq_true, beq_iff_eq] at hcon
        have haij : a = (i, j) := Prod.ext hcon.1 hcon.2
        exact hq (by rw [hqij, ← haij]; exact ha)
      rw [hz, hmatch]
      simp
    · rw [Bool.not_eq_true] at hmatch
      rw [hmatch]
      simpa using ih hps

lemma cell_mem_flatten {m : List (List Int)} {n : Nat} (h : MatShape m n) {e : Int}
    (he : e ∈ m.flatten) : ∃ i j, i < n ∧ j < n ∧ e = getCell m i j := by
  rw [List.mem_flatten] at he
  obtain ⟨row, hrow, he⟩ := he
  obtain ⟨i, hi, hrowi⟩ := List.mem_iff_getElem.1 hrow
  obtain ⟨j, hj, hej⟩ := List.mem_iff_getElem.1 he
  have hin : i < n := by rw [← h.1]; exact hi
  have hrown : row.length = n := h.2 row hrow
  refine ⟨i, j, hin, by omega, ?_⟩
  have h1 : m.getD i [] = row := by
    rw [List.getD_eq_getElem?_getD, List.getElem?_eq_getElem hi, Option.getD_some, hrowi]
  rw [getCell, h1, List.getD_eq_getElem?_getD, List.getElem?_eq_getElem hj,
    Option.getD_some, hej]

lemma getCell_nonneg {m : List (List Int)} (h : ∀ e ∈ m.flatten, 0 ≤ e) (a b : Nat) :
    0 ≤ getCell m a b := by
  by_cases ha : a < m.length
  · by_cases hb : b < (m.getD a []).length
    · exact h _ (List.mem_flatten.2 ⟨_, getD_mem_of_lt ha, getD_mem hb⟩)
    · rw [getCell, List.getD_eq_getElem?_getD (m.getD a []), List.getElem?_eq_none (by omega)]
      simp
  · rw [getCell, List.getD_eq_getElem?_getD m, List.getElem?_eq_none (by omega)]
    simp

lemma flatten_nonneg_incCell {m : List (List Int)} {a b : Nat}
    (h : ∀ e ∈ m.flatten, 0 ≤ e) : ∀ e ∈ (incCell m a b).flatten, 0 ≤ e := by
  intro e he
  rw [incCell, List.mem_flatten] at he
  obtain ⟨row, hrow, he⟩ := he
  rcases List.mem_or_eq_of_mem_set hrow with hrow' | rfl
  · exact h e (List.mem_flatten.2 ⟨row, hrow', he⟩)
  · rcases List.mem_or_eq_of_mem_set he with he' | rfl
    · by_cases ha : a < m.length
      · exact h e (List.mem_flatten.2 ⟨_, getD_mem_of_lt ha, he'⟩)
      · rw [List.getD_eq_getElem?_getD, List.getElem?_eq_none (by omega)] at he'
        simp at he'
    · have := getCell_nonneg h a b
      omega

lemma flatten_nonneg_applyIncs {ps : List (Nat × Nat)} :
    ∀ {m : List (List Int)}, (∀ e ∈ m.flatten, 0 ≤ e) →
      ∀ e ∈ (applyIncs m ps).flatten, 0 ≤ e := by
  induction ps with
  | nil => intro m h; exact h
  | cons q ps ih =>
    intro m h
    rw [applyIncs_cons]
    exact ih (flatten_nonneg_incCell h)

lemma flatten_zeroMatrix_nonneg (n : Nat) : ∀ e ∈ (zeroMatrix n).flatten, (0 : Int) ≤ e := by
  intro e he
  rw [List.mem_flatten] at he
  obtain ⟨row, hrow, he⟩ := he
  have hr : row = List.replicate n (0 : Int) :=
    List.eq_of_mem_replicate (by simpa [zeroMatrix] using hrow)
  rw [hr] at he
  rw [List.eq_of_mem_replicate he]

lemma flatten_buildMatrix_nonneg (g : Graph) :
    ∀ e ∈ (buildMatrix g).flatten, 0 ≤ e := by
  rw [buildMatrix_eq_applyIncs]
  exact flatten_nonneg_applyIncs (flatten_zeroMatrix_nonneg g.nodeCount)

lemma flatten_cells_zero_or_one {g : Graph} (hwf : g.WF) :
    ∀ e ∈ (buildMatrix g).flatten, e = 0 ∨ e = 1 := by
  intro e he
  obtain ⟨i, j, hi, hj, rfl⟩ := cell_mem_flatten (matShape_buildMatrix g) he
  rw [getCell_buildMatrix hwf]
  have hle := countP_pair_le_one (nodup_indexPairs hwf) i j
  rcases Nat.le_one_iff_eq_zero_or_eq_one.1 hle with h | h <;> rw [h] <;> simp

lemma getCell_edge {g : Graph} (hwf : g.WF) {pr : String × String}
    (hpr : pr ∈ g.edgePairs) :
    getCell (buildMatrix g) (nodeIndex g pr.1) (nodeIndex g pr.2) = 1 := by
  rw [getCell_buildMatrix hwf]
  have hmem : (nodeIndex g pr.1, nodeIndex g pr.2) ∈ indexPairs g :=
    List.mem_map.2 ⟨pr, hpr, rfl⟩
  have hpos : 0 < (indexPairs g).countP
      (fun p => p.1 == nodeIndex g pr.1 && p.2 == nodeIndex g pr.2) := by
    rw [List.countP_pos_iff]
    exact ⟨_, hmem, by simp⟩
  have hle := countP_pair_le_one (nodup_indexPairs hwf)
    (nodeIndex g pr.1) (nodeIndex g pr.2)
  have h1 : (indexPairs g).countP
      (fun p => p.1 == nodeIndex g pr.1 && p.2 == nodeIndex g pr.2) = 1 := by omega
  rw [h1]
  rfl

lemma length_flatten_buildMatrix (g : Graph) :
    (buildMatrix g).flatten.length = g.nodeCount * g.nodeCount := by
  have h := matShape_buildMatrix g
  rw [List.length_flatten]
  have hrep : (buildMatrix g).map List.length =
      List.replicate g.nodeCount g.nodeCount := by
    rw [List.eq_replicate_iff]
    refine ⟨by simp [h.1], ?_⟩
    intro b hb
    rw [List.mem_map] at hb
    obtain ⟨row, hrow, rfl⟩ := hb
    exact h.2 row hrow
  rw [hrep, List.sum_replicate, smul_eq_mul]

lemma length_importingNames (g : Graph) :
    (importingNames g).length = g.nodeCount * g.nodeCount := by
  rw [importingNames, List.length_flatMap]
  simp only [Function.comp_def]
  have hrep : (nodeNames g).map (fun s => ((nodeNames g).map (fun _ => s)).length) =
      List.replicate g.nodeCount g.nodeCount := by
    rw [List.eq_replicate_iff]
    refine ⟨by simp [length_nodeNames], ?_⟩
    intro b hb
    rw [List.mem_map] at hb
    obtain ⟨s, hs, rfl⟩ := hb
    simp [length_nodeNames]
  rw [hrep, List.sum_replicate, smul_eq_mul]

lemma length_importedNames (g : Graph) :
    (importedNames g).length = g.nodeCount * g.nodeCount := by
  rw [importedNames, List.length_flatMap]
  simp only [Function.comp_def]
  have hrep : (nodeNames g).map (fun _ => (nodeNames g).length) =
      List.replicate g.nodeCount g.nodeCount := by
    rw [List.eq_replicate_iff]
    refine ⟨by simp [length_nodeNames], ?_⟩
    intro b hb
    rw [List.mem_map] at hb
    obtain ⟨s, hs, rfl⟩ := hb
    exact length_nodeNames g
  rw [hrep, List.sum_replicate, smul_eq_mul]

lemma assignColors_eq_map {cells : List Int} (h : ∀ e ∈ cells, e = 0 ∨ e = 1)
    (oc ic : String) :
    assignColors cells oc ic = cells.map (fun e => if e = 0 then "#ffffff" else oc) := by
  induction cells with
  | nil => rfl
  | cons e cells ih =>
    have ih' := ih (fun x hx => h x (List.mem_cons_of_mem e hx))
    rcases h e (List.mem_cons_self e cells) with rfl | rfl
    · rw [assignColors, List.filterMap_cons, List.map_cons]
      have hc : cellColor 0 oc ic = some "#ffffff" := rfl
      rw [hc]
      rw [assignColors] at ih'
      rw [ih']
      simp
    · rw [assignColors, List.filterMap_cons, List.map_cons]
      have hc : cellColor 1 oc ic = some oc := rfl
      rw [hc]
      rw [assignColors] at ih'
      rw [ih']
      simp

lemma length_assignColors {g : Graph} (hwf : g.WF) (oc ic : String) :
    (assignColors (buildMatrix g).flatten oc ic).length = g.nodeCount * g.nodeCount := by
  rw [assignColors_eq_map (flatten_cells_zero_or_one hwf) oc ic, List.length_map]
  exact length_flatten_buildMatrix g

/-! ## Index assignment lemmas -/

lemma foldl_setNodeIndex (ps : List (Nat × String)) :
    ∀ ns : List Node,
      ps.foldl (fun ns p => setNodeIndex ns p.2 p.1) ns = ns.map (applyIndexUpdates ps) := by
  induction ps with
  | nil =>
    intro ns
    simp only [List.foldl_nil]
    symm
    exact List.map_id'' (fun nd => rfl) ns
  | cons p ps ih =>
    intro ns
    rw [List.foldl_cons, ih (setNodeIndex ns p.2 p.1), setNodeIndex, List.map_map]
    rfl

lemma applyIndexUpdates_name (ps : List (Nat × String)) (nd : Node) :
    (applyIndexUpdates ps nd).name = nd.name := by
  induction ps generalizing nd with
  | nil => rfl
  | cons p ps ih =>
    rw [applyIndexUpdates, List.foldl_cons]
    by_cases h : (nd.name == p.2) = true
    · rw [if_pos h]
      exact ih _
    · rw [if_neg h]
      exact ih _

lemma applyIndexUpdates_not_mem {ps : List (Nat × String)} {nd : Node}
    (h : ∀ p ∈ ps, p.2 ≠ nd.name) : applyIndexUpdates ps nd = nd := by
  induction ps with
  | nil => rfl
  | cons p ps ih =>
    rw [applyIndexUpdates, List.foldl_cons]
    have hne : ¬((nd.name == p.2) = true) :=
      fun he => h p (List.mem_cons_self p ps) (eq_of_beq he).symm
    rw [if_neg hne]
    exact ih (fun q hq => h q (List.mem_cons_of_mem p hq))

lemma applyIndexUpdates_enumFrom {l : List String} (hnd : l.Nodup) {nd : Node}
    (hmem : nd.name ∈ l) (k : Nat) :
    applyIndexUpdates (l.enumFrom k) nd =
      { nd with index := some (k + l.indexOf nd.name) } := by
  induction l generalizing nd k with
  | nil => simp at hmem
  | cons a l ih =>
    rw [List.enumFrom_cons, applyIndexUpdates, List.foldl_cons]
    by_cases ha : nd.name = a
    · rw [if_pos (by simp [ha])]
      have hnotin : nd.name ∉ l := by
        rw [ha]
        exact (List.nodup_cons.1 hnd).1
      have hrest :
          applyIndexUpdates (l.enumFrom (k + 1)) { nd with index := some k } =
            { nd with index := some k } := by
        refine applyIndexUpdates_not_mem ?_
        intro p hp hcon
        refine hnotin ?_
        have : p.2 ∈ (l.enumFrom (k + 1)).map Prod.snd := List.mem_map_of_mem Prod.snd hp
        rw [List.enumFrom_map_snd] at this
        simpa [hcon] using this
      have hidx : List.indexOf nd.name (a :: l) = 0 := List.indexOf_cons_eq l ha.symm
      have harith : k + List.indexOf nd.name (a :: l) = k := by
        rw [hidx]
        omega
      rw [harith]
      exact hrest
    · rw [if_neg (by simp [ha])]
      have hmem' : nd.name ∈ l := by
        rcases List.mem_cons.1 hmem with h | h
        · exact absurd h ha
        · exact h
      have hih := ih (List.nodup_cons.1 hnd).2 hmem' (k + 1)
      have hidx : List.indexOf nd.name (a :: l) = List.indexOf nd.name l + 1 :=
        List.indexOf_cons_ne l (fun he => ha he.symm)
      have harith : k + List.indexOf nd.name (a :: l) = (k + 1) + List.indexOf nd.name l := by
        rw [hidx]
        omega
      rw [harith]
      exact hih

lemma assignIndices_nodes (g : Graph) :
    (assignIndices g).nodes = g.nodes.map (applyIndexUpdates (nodeNames g).enum) := by
  rw [assignIndices]
  exact foldl_setNodeIndex _ g.nodes

/-! ## Structure graph lemmas -/

lemma structureEdgeData_eq_filterMap (g : Graph) :
    structureEdgeData g = g.edgePairs.filterMap (edgeCoords g) := by
  rw [structureEdgeData, Graph.edgePairs, List.filterMap_flatMap]
  congr 1
  funext p
  rw [List.filterMap_map]
  rfl

lemma edgeCoords_isSome_iff (g : Graph) (pr : String × String) :
    (edgeCoords g pr).isSome = ((g.getNode pr.1).isSome && (g.getNode pr.2).isSome) := by
  rw [edgeCoords]
  cases g.getNode pr.1 <;> cases g.getNode pr.2 <;> rfl

lemma length_structureEdgeData (g : Graph) :
    (structureEdgeData g).length =
      (g.edgePairs.filter
        (fun pr => (g.getNode pr.1).isSome && (g.getNode pr.2).isSome)).length := by
  rw [structureEdgeData_eq_filterMap, List.length_filterMap_eq_countP,
    ← List.countP_eq_length_filter]
  exact List.countP_congr (fun pr _ => by rw [edgeCoords_isSome_iff])

/-! ## Claim theorems -/

/-- C1, counterexample to the claim as stated: in the §8 example graph
the edge `a → b` has multiplicity 2, yet the matrix cell at
`(index[a], index[b])` ends up `1`, and the sum of all cell counts is
`2`, not the total edge multiplicity `3`: the accumulation loop of
render.py lines 181-183 iterates destination keys and adds `1`, never
the multiplicity. -/
theorem claim_C1_counterexample :
    ¬(getCell (buildMatrix exampleGraph)
        (nodeIndex exampleGraph "a") (nodeIndex exampleGraph "b") = 2 ∧
      (buildMatrix exampleGraph).flatten.sum =
        (exampleGraph.totalEdgeMultiplicity : Int)) := by
  intro h
  exact absurd h.1 (by decide)

/-- C1 (amended): for every well-formed graph, each recorded edge
`source → destination` — whatever its multiplicity — leaves the cell at
`(index[source], index[destination])` with value `1`, and the sum of
all cell counts equals the number of distinct directed edges. -/
theorem claim_C1 {g : Graph} (hwf : g.WF) :
    (∀ pr ∈ g.edgePairs,
      getCell (buildMatrix g) (nodeIndex g pr.1) (nodeIndex g pr.2) = 1) ∧
    (buildMatrix g).flatten.sum = (g.edgePairs.length : Int) :=
  ⟨fun _ hpr => getCell_edge hwf hpr, flattenSum_buildMatrix hwf⟩

/-- C1 witness: the amended claim evaluated on the §8 example graph. -/
theorem claim_C1_witness :
    exampleGraph.WF ∧
    getCell (buildMatrix exampleGraph)
      (nodeIndex exampleGraph "a") (nodeIndex exampleGraph "b") = 1 ∧
    (buildMatrix exampleGraph).flatten.sum = (exampleGraph.edgePairs.length : Int) := by
  have hwf : exampleGraph.WF := by decide
  exact ⟨hwf, (claim_C1 hwf).1 ("a", "b") (by decide), (claim_C1 hwf).2⟩

/-- C2: for every well-formed graph with `N` nodes, all four per-cell
columns of `render_dependency_matrix` — importing name, imported name,
count and color — have exactly `N²` entries. -/
theorem claim_C2 {g : Graph} (hwf : g.WF) (oc ic : String) :
    (renderDependencyMatrixData g oc ic).importing.length = g.nodeCount * g.nodeCount ∧
    (renderDependencyMatrixData g oc ic).imported.length = g.nodeCount * g.nodeCount ∧
    (renderDependencyMatrixData g oc ic).matrix.length = g.nodeCount * g.nodeCount ∧
    (renderDependencyMatrixData g oc ic).color.length = g.nodeCount * g.nodeCount :=
  ⟨length_importingNames g, length_importedNames g, length_flatten_buildMatrix g,
    length_assignColors hwf oc ic⟩

/-- C2 witness: the cell-count invariant evaluated on the §8 example
graph (`N = 3`). -/
theorem claim_C2_witness :
    exampleGraph.WF ∧
    (renderDependencyMatrixData exampleGraph "#0000ff" "#ff0000").importing.length =
      exampleGraph.nodeCount * exampleGraph.nodeCount ∧
    (renderDependencyMatrixData exampleGraph "#0000ff" "#ff0000").color.length =
      exampleGraph.nodeCount * exampleGraph.nodeCount := by
  have hwf : exampleGraph.WF := by decide
  exact ⟨hwf, (claim_C2 hwf "#0000ff" "#ff0000").1, (claim_C2 hwf "#0000ff" "#ff0000").2.2.2⟩

/-- C3: for every well-formed graph, each cell's color is determined by
its count: count `0` yields the neutral background `"#ffffff"` and
every nonzero count yields `out_color`, the pure-importer endpoint
color. -/
theorem claim_C3 {g : Graph} (hwf : g.WF) (oc ic : String) :
    (renderDependencyMatrixData g oc ic).color =
      (renderDependencyMatrixData g oc ic).matrix.map
        (fun e => if e = 0 then "#ffffff" else oc) :=
  assignColors_eq_map (flatten_cells_zero_or_one hwf) oc ic

/-- C3 witness: the per-cell color rule evaluated on the §8 example
graph. -/
theorem claim_C3_witness :
    exampleGraph.WF ∧
    (renderDependencyMatrixData exampleGraph "#0000ff" "#ff0000").color =
      (renderDependencyMatrixData exampleGraph "#0000ff" "#ff0000").matrix.map
        (fun e => if e = 0 then "#ffffff" else "#0000ff") :=
  ⟨by decide, claim_C3 (by decide) "#0000ff" "#ff0000"⟩

/-- C4: for every graph, every cell of the dependency matrix is
nonnegative — a zero-initialized matrix only ever incremented — so no
cell equals `-1` and the `element == -1` color branch of render.py
line 190 is unreachable. -/
theorem claim_C4 (g : Graph) :
    ∀ e ∈ (buildMatrix g).flatten, 0 ≤ e ∧ e ≠ -1 := by
  intro e he
  have h := flatten_buildMatrix_nonneg g e he
  exact ⟨h, by omega⟩

/-- C4 witness: nonnegativity of a concrete cell of the §8 example
matrix. -/
theorem claim_C4_witness :
    (1 : Int) ∈ (buildMatrix exampleGraph).flatten ∧ (0 : Int) ≤ 1 ∧ (1 : Int) ≠ -1 := by
  have h := claim_C4 exampleGraph 1 (by decide)
  exact ⟨by decide, h.1, h.2⟩

/-- C5: every node with `in_degree == 0` and `out_degree == 0`
receives the fixed disconnected color, whatever the two endpoint
colors are. -/
theorem claim_C5 {g : Graph} {name : String} (h1 : g.inDegree name = 0)
    (h2 : g.outDegree name = 0) (in_color out_color dis_color : Color) :
    dependencyNodeColor g name in_color out_color dis_color = dis_color := by
  rw [dependencyNodeColor]
  exact if_pos ⟨h1, h2⟩

/-- C5 witness: the isolated node `c` of the §8 example graph gets the
disconnected color. -/
theorem claim_C5_witness :
    exampleGraph.inDegree "c" = 0 ∧ exampleGraph.outDegree "c" = 0 ∧
    dependencyNodeColor exampleGraph "c" colorA colorB colorC = colorC :=
  ⟨by decide, by decide, claim_C5 (by decide) (by decide) colorA colorB colorC⟩

/-- C6: for every node with `in_degree + out_degree > 0` the color is
the per-channel linear interpolation
`out_channel + (in_channel - out_channel) * (in_degree / (in_degree + out_degree))`;
degrees `(0, k)` yield exactly the importer endpoint color, degrees
`(k, 0)` exactly the imported endpoint color, and equal degrees the
exact midpoint of the two endpoint colors. -/
theorem claim_C6 {g : Graph} {name : String}
    (h : 0 < g.inDegree name + g.outDegree name) (in_color out_color dis_color : Color) :
    dependencyNodeColor g name in_color out_color dis_color =
      { r := out_color.r + (in_color.r - out_color.r) *
              ((g.inDegree name : ℚ) / ((g.inDegree name : ℚ) + (g.outDegree name : ℚ)))
        g := out_color.g + (in_color.g - out_color.g) *
              ((g.inDegree name : ℚ) / ((g.inDegree name : ℚ) + (g.outDegree name : ℚ)))
        b := out_color.b + (in_color.b - out_color.b) *
              ((g.inDegree name : ℚ) / ((g.inDegree name : ℚ) + (g.outDegree name : ℚ))) } ∧
    (g.inDegree name = 0 →
      dependencyNodeColor g name in_color out_color dis_color = out_color) ∧
    (g.outDegree name = 0 →
      dependencyNodeColor g name in_color out_color dis_color = in_color) ∧
    (g.inDegree name = g.outDegree name →
      dependencyNodeColor g name in_color out_color dis_color =
        { r := (out_color.r + in_color.r) / 2
          g := (out_color.g + in_color.g) / 2
          b := (out_color.b + in_color.b) / 2 }) := by
  have hne : ¬(g.inDegree name = 0 ∧ g.outDegree name = 0) := by omega
  have hmain : dependencyNodeColor g name in_color out_color dis_color =
      linear_gradient out_color in_color (g.inDegree name) (g.outDegree name) := by
    rw [dependencyNodeColor]
    exact if_neg hne
  refine ⟨by rw [hmain]; rfl, ?_, ?_, ?_⟩
  · intro h0
    rw [hmain, linear_gradient]
    ext <;> simp [h0]
  · intro h0
    have hind : ((g.inDegree name : ℚ)) ≠ 0 := by
      have : g.inDegree name ≠ 0 := by omega
      exact_mod_cast this
    rw [hmain, linear_gradient]
    ext <;> (simp [h0, div_self hind]; try ring)
  · intro heq
    have hk : 0 < g.inDegree name := by omega
    have hw : ((g.inDegree name : ℚ)) / ((g.inDegree name : ℚ) + (g.inDegree name : ℚ)) =
        1 / 2 := by
      have hk' : ((g.inDegree name : ℚ)) ≠ 0 := by
        have : g.inDegree name ≠ 0 := by omega
        exact_mod_cast this
      field_simp
      ring
    rw [hmain, linear_gradient, ← heq]
    ext <;> (rw [hw]; ring)

/-- C6 witness: node `a` of the §8 example graph (in-degree 1,
out-degree 2) gets the interpolated color. -/
theorem claim_C6_witness :
    0 < exampleGraph.inDegree "a" + exampleGraph.outDegree "a" ∧
    dependencyNodeColor exampleGraph "a" colorA colorB colorC =
      { r := colorB.r + (colorA.r - colorB.r) *
              ((exampleGraph.inDegree "a" : ℚ) /
                ((exampleGraph.inDegree "a" : ℚ) + (exampleGraph.outDegree "a" : ℚ)))
        g := colorB.g + (colorA.g - colorB.g) *
              ((exampleGraph.inDegree "a" : ℚ) /
                ((exampleGraph.inDegree "a" : ℚ) + (exampleGraph.outDegree "a" : ℚ)))
        b := colorB.b + (colorA.b - colorB.b) *
              ((exampleGraph.inDegree "a" : ℚ) /
                ((exampleGraph.inDegree "a" : ℚ) + (exampleGraph.outDegree "a" : ℚ))) } :=
  ⟨by decide, (claim_C6 (by decide) colorA colorB colorC).1⟩

/-- C7: one node ordering — the reverse of the graph's node-name
sequence — is fixed per render and every node's `index` field ends up
equal to its 0-based position in that ordering (under the unique-names
invariant). -/
theorem claim_C7 {g : Graph} (hnd : (g.nodes.map (·.name)).Nodup) :
    nodeNames g = g.getAllNodeNames.reverse ∧
    ∀ nd ∈ (assignIndices g).nodes, nd.index = some (nodeIndex g nd.name) := by
  refine ⟨rfl, ?_⟩
  intro nd hmem
  rw [assignIndices_nodes, List.mem_map] at hmem
  obtain ⟨nd0, hnd0, rfl⟩ := hmem
  have hmem' : nd0.name ∈ nodeNames g := by
    rw [mem_nodeNames, Graph.getAllNodeNames]
    exact List.mem_map_of_mem (·.name) hnd0
  have hnodup : (nodeNames g).Nodup := by
    rw [nodeNames, Graph.getAllNodeNames]
    exact List.nodup_reverse.2 hnd
  have hupd := applyIndexUpdates_enumFrom hnodup hmem' 0
  rw [applyIndexUpdates_name]
  rw [show (nodeNames g).enum = (nodeNames g).enumFrom 0 from rfl, hupd, nodeIndex]
  simp

/-- C7 witness: in the §8 example graph the node named `a` ends up
with index 2, its position in the reversed name sequence. -/
theorem claim_C7_witness :
    (exampleGraph.nodes.map (·.name)).Nodup ∧
    exampleNodeA ∈ (assignIndices exampleGraph).nodes ∧
    exampleNodeA.index = some (nodeIndex exampleGraph exampleNodeA.name) := by
  have h := (claim_C7 (g := exampleGraph) (by decide)).2 exampleNodeA (by decide)
  exact ⟨by decide, by decide, h⟩

/-- C8: matrix construction is deterministic — two runs over the same
populated graph with the same endpoint colors produce identical
per-cell columns. -/
theorem claim_C8 {g1 g2 : Graph} (hn : g1.nodes = g2.nodes) (he : g1.edges = g2.edges)
    (oc ic : String) :
    renderDependencyMatrixData g1 oc ic = renderDependencyMatrixData g2 oc ic := by
  have hg : g1 = g2 := by
    cases g1
    cases g2
    simp only at hn he
    rw [hn, he]
  rw [hg]

/-- C8 witness: determinism instantiated on the §8 example graph. -/
theorem claim_C8_witness :
    exampleGraph.nodes = exampleGraph.nodes ∧
    exampleGraph.edges = exampleGraph.edges ∧
    renderDependencyMatrixData exampleGraph "#0000ff" "#ff0000" =
      renderDependencyMatrixData exampleGraph "#0000ff" "#ff0000" :=
  ⟨rfl, rfl, claim_C8 rfl rfl "#0000ff" "#ff0000"⟩

/-- C9: `render_structure_graph` emits one full coordinate pair per
edge exactly when both endpoint names resolve via `get_node`; an edge
with an unresolvable endpoint contributes nothing (it is silently
skipped, with no partial pair and no error). -/
theorem claim_C9 (g : Graph) :
    structureEdgeData g = g.edgePairs.filterMap (edgeCoords g) ∧
    (structureEdgeData g).length =
      (g.edgePairs.filter
        (fun pr => (g.getNode pr.1).isSome && (g.getNode pr.2).isSome)).length ∧
    ∀ pr : String × String,
      ((edgeCoords g pr).isSome ↔ (g.getNode pr.1).isSome ∧ (g.getNode pr.2).isSome) := by
  refine ⟨structureEdgeData_eq_filterMap g, length_structureEdgeData g, ?_⟩
  intro pr
  rw [edgeCoords_isSome_iff]
  simp

/-- C10: the structure-graph node color is the root color exactly on
type `"root"`, the directory color exactly on type `"directory"`, and
the file color on every other type value, including values outside the
closed variant. -/
theorem claim_C10 {g : Graph} {nd : Node} (h : nd ∈ g.nodes)
    (root_dir_color dir_color file_color : String) :
    (nd.type = "root" →
      structureNodeColor nd root_dir_color dir_color file_color = root_dir_color) ∧
    (nd.type = "directory" →
      structureNodeColor nd root_dir_color dir_color file_color = dir_color) ∧
    (nd.type ≠ "root" → nd.type ≠ "directory" →
      structureNodeColor nd root_dir_color dir_color file_color = file_color) ∧
    structureNodeColor nd root_dir_color dir_color file_color ∈
      structureNodeColors g root_dir_color dir_color file_color := by
  refine ⟨?_, ?_, ?_, List.mem_map_of_mem _ h⟩
  · intro ht
    rw [structureNodeColor, if_pos (by simp [ht])]
  · intro ht
    rw [structureNodeColor, if_neg (by simp [ht]), if_pos (by simp [ht])]
  · intro h1 h2
    rw [structureNodeColor, if_neg (by simpa using h1), if_neg (by simpa using h2)]

/-- C10 witness: the node of type `"weird"` — outside the closed
variant — gets the file color. -/
theorem claim_C10_witness :
    exampleNodeW ∈ exampleStructureGraph.nodes ∧
    exampleNodeW.type ≠ "root" ∧ exampleNodeW.type ≠ "directory" ∧
    structureNodeColor exampleNodeW "#aaaaaa" "#bbbbbb" "#cccccc" = "#cccccc" :=
  ⟨by decide, by decide, by decide,
    (claim_C10 (by decide : exampleNodeW ∈ exampleStructureGraph.nodes)
      "#aaaaaa" "#bbbbbb" "#cccccc").2.2.1 (by decide) (by decide)⟩

end Depender
